import Mathlib

/-!
Verification development for the routedns core: the Domain Blocklist
(`BlocklistDB` contract, src/unnamed/part_000, exercised by
src/blocklistdb-domain_test.go) and the latency-probing resolver
`FastestTCP` (src/fastest-tcp.go).

The concrete Domain Blocklist implementation is absent from the source
excerpt (only its interface and its tests are present), so the blocklist
definitions below are modelled from the spec (sections 3 and 4.1).
`FastestTCP` is embedded directly from src/fastest-tcp.go; the concurrent
probe round is abstracted as an explicit completion-order event stream.
-/

set_option autoImplicit false

/-! ## Domain Blocklist (modelled from the spec) -/

/-- Modelled from the spec: classification of a Rule Pattern -
`Exact` (no leading marker), `ExactAndSubdomains` (leading dot),
`SubdomainsOnly` (leading `*.`). -/
inductive DomainRuleType where
  | Exact
  | ExactAndSubdomains
  | SubdomainsOnly
deriving DecidableEq

/-- Modelled from the spec: a parsed Rule Pattern, kept with its node's
domain labels (leftmost label first) and the raw rule string for
provenance (`BlocklistMatch.Rule`). -/
structure DomainRule where
  labels : List String
  rule : DomainRuleType
  raw : String
deriving DecidableEq

/-- Remove a single trailing dot (trailing-dot normalization of
fully-qualified names, per the spec's data model). -/
def stripTrailingDot (cs : List Char) : List Char :=
  match cs.getLast? with
  | some '.' => cs.dropLast
  | _ => cs

/-- Split a character list into domain labels at the dots. -/
def splitDots (cs : List Char) (cur : List Char) : List String :=
  match cs with
  | [] => [String.mk cur.reverse]
  | c :: rest =>
    if c == '.' then String.mk cur.reverse :: splitDots rest []
    else splitDots rest (c :: cur)

/-- Domain labels of a (trailing-dot normalized) name, leftmost first. -/
def nameLabels (s : String) : List String :=
  splitDots (stripTrailingDot s.toList) []

/-- Modelled from the spec (the concrete blocklist matcher source file is
missing from the excerpt): parse one raw pattern string. A leading `*.`
gives `SubdomainsOnly`, a leading `.` gives `ExactAndSubdomains`, anything
else is `Exact`; a wildcard anywhere but the leading position
(`sub.*.com`) or a malformed wildcard (`*domain.com`) is rejected. -/
def parseRulePattern (s : String) : Option DomainRule :=
  let cs := stripTrailingDot s.toList
  match cs with
  | '*' :: '.' :: rest =>
    if rest.contains '*' then none
    else some ⟨splitDots rest [], DomainRuleType.SubdomainsOnly, s⟩
  | '.' :: rest =>
    if rest.contains '*' then none
    else some ⟨splitDots rest [], DomainRuleType.ExactAndSubdomains, s⟩
  | _ =>
    if cs.contains '*' then none
    else some ⟨splitDots cs [], DomainRuleType.Exact, s⟩

/-- Modelled from the spec: build the rule set from the Rule Loader's raw
pattern strings, failing fast on the first malformed pattern (no partial
build). All rules at a node remain retrievable, so the build keeps every
parsed rule. -/
def buildRules (patterns : List String) : Except String (List DomainRule) :=
  match patterns with
  | [] => Except.ok []
  | p :: rest =>
    match parseRulePattern p with
    | none => Except.error ("invalid rule '" ++ p ++ "'")
    | some r =>
      match buildRules rest with
      | Except.error e => Except.error e
      | Except.ok rs => Except.ok (r :: rs)

/-- The strict ancestors of a label list, most specific first: each proper
suffix of the labels, longest first. -/
def strictAncestors (ls : List String) : List (List String) :=
  match ls with
  | [] => []
  | _ :: t => t :: strictAncestors t

/-- First rule sitting exactly at node `ls` whose classification is in
`tys` (a node can hold several rules; scan in load order). -/
def findRuleAt (rules : List DomainRule) (ls : List String)
    (tys : List DomainRuleType) : Option DomainRule :=
  rules.find? (fun r => r.labels == ls && tys.contains r.rule)

/-- Modelled from the spec's `Match` lookup: step 1 - a rule at the node of
the entire query name carrying `Exact` or `ExactAndSubdomains` matches;
step 2 - otherwise the most specific strict ancestor carrying
`ExactAndSubdomains` or `SubdomainsOnly` matches; otherwise no match.
Returns the deciding rule (provenance), `none` when not matched. -/
def matchName (rules : List DomainRule) (q : String) : Option DomainRule :=
  let ql := nameLabels q
  match findRuleAt rules ql
      [DomainRuleType.Exact, DomainRuleType.ExactAndSubdomains] with
  | some r => some r
  | none =>
    (strictAncestors ql).findSome? (fun anc =>
      findRuleAt rules anc
        [DomainRuleType.ExactAndSubdomains, DomainRuleType.SubdomainsOnly])

/-- Modelled from the spec: the Domain Blocklist - a list identifier and
the rule set built from the Rule Loader output. -/
structure DomainDB where
  name : String
  rules : List DomainRule
deriving DecidableEq

/-- Modelled from the spec: `Match` on the blocklist instance; `some r`
carries the deciding rule (the `BlocklistMatch` provenance), `none` means
"not blocked". -/
def DomainDB.Match (db : DomainDB) (q : String) : Option DomainRule :=
  matchName db.rules q

/-- Modelled from the spec: `Reload` builds an entirely new instance from
the Rule Loader's current output and returns it; on a parse failure it
returns the error. The receiver is taken by value and returned data is a
fresh instance, so the caller's existing instance is never mutated. -/
def DomainDB.Reload (db : DomainDB) (loaderOutput : List String) :
    Except String DomainDB :=
  match buildRules loaderOutput with
  | Except.error e => Except.error e
  | Except.ok rs => Except.ok ⟨db.name, rs⟩

/-- The rule set of the blocklist test scenario
(src/blocklistdb-domain_test.go, TestDomainDB). -/
def testPatterns : List String :=
  ["domain1.com.", ".domain2.com.", "x.domain2.com", "*.domain3.com",
   "x.x.domain3.com", "domain4.com", ".domain4.com"]

/-- Modelled from the spec: one call of the `Reload` method, observing both
the receiver after the call and the call's result. The Go method builds a
new instance and returns it without writing to the receiver, so the
receiver after the call is the receiver before it. -/
def DomainDB.reloadCall (db : DomainDB) (loaderOutput : List String) :
    DomainDB × Except String DomainDB :=
  (db, db.Reload loaderOutput)

/-! ## FastestTCP (embedded from src/fastest-tcp.go)

The concurrent probe round (`probe`, `probeFastest`, `probeAll`) launches
one goroutine per candidate record, each sending one `tcpProbeResult` on an
unbuffered channel; the consumer reads the channel under a 2-second
deadline context. The embedding abstracts the round's real-time and
scheduling nondeterminism as an explicit list of `ProbeEvent`s in
completion order: each entry is either the next `tcpProbeResult` received
or the deadline firing first. -/

/-- A DNS resource record as `FastestTCP` observes it: its header record
type (`Header().Rrtype`), owner name and record data (address text for
A/AAAA records), kept opaque. -/
structure RR where
  rrtype : Nat
  name : String
  rdata : String
deriving DecidableEq

/-- The constant `dns.TypeA`. -/
def typeA : Nat := 1

/-- The constant `dns.TypeAAAA`. -/
def typeAAAA : Nat := 28

/-- The constant `dns.TypeCNAME` (used only in concrete instances). -/
def typeCNAME : Nat := 5

/-- A DNS question (name, query type, query class). -/
structure Question where
  qname : String
  qtype : Nat
  qclass : Nat
deriving DecidableEq

/-- A DNS message as `FastestTCP` observes it: question section, the four
record sections and the header fields it never touches (kept abstract as
id and rcode). -/
structure Msg where
  msgId : Nat
  rcode : Nat
  question : List Question
  answer : List RR
  ns : List RR
  extra : List RR
deriving DecidableEq

/-- Options `FastestTCPOptions` (src/fastest-tcp.go): probe port and the WaitAll
mode flag. -/
structure FastestTCPOptions where
  port : Nat
  waitAll : Bool
deriving DecidableEq

/-- Structure `FastestTCP`: identifier, options and the probe port string; the
wrapped resolver is abstracted as the upstream result passed to
`resolveModel`. -/
structure FastestTCP where
  id : String
  opt : FastestTCPOptions
  port : String
deriving DecidableEq

/-- Constructor `NewFastestTCP` (src/fastest-tcp.go): the probe port string defaults
to "443" when the option is unset. -/
def NewFastestTCP (id : String) (opt : FastestTCPOptions) : FastestTCP :=
  let port := toString opt.port
  { id := id, opt := opt, port := if port == "0" then "443" else port }

deriving instance DecidableEq for Except

/-- One step observed by the channel consumer: the next `tcpProbeResult`
delivered (either the probed record on success or an error string on
failure), or the deadline context firing first. -/
inductive ProbeEvent where
  | res (r : Except String RR)
  | deadline
deriving DecidableEq

/-- Function `probeFastest` (src/fastest-tcp.go): wait for the first probe result
or the deadline; return the result's record or error, or the context's
deadline error. An exhausted event stream stands for no event before the
deadline. -/
def probeFastest (events : List ProbeEvent) : Except String RR :=
  match events with
  | ProbeEvent.res r :: _ => r
  | ProbeEvent.deadline :: _ => Except.error "context deadline exceeded"
  | [] => Except.error "context deadline exceeded"

/-- The reading loop of `probeAll`: collect `n` probe results in
completion order; fail on the first failed probe or when the deadline
fires before all `n` results arrived. -/
def probeAllGo : Nat → List ProbeEvent → List RR → Except String (List RR)
  | 0, _, acc => Except.ok acc.reverse
  | _ + 1, [], _ => Except.error "context deadline exceeded"
  | _ + 1, ProbeEvent.deadline :: _, _ =>
    Except.error "context deadline exceeded"
  | _ + 1, ProbeEvent.res (Except.error e) :: _, _ => Except.error e
  | n + 1, ProbeEvent.res (Except.ok rr) :: rest, acc =>
    probeAllGo n rest (rr :: acc)

/-- Function `probeAll` (src/fastest-tcp.go): probe all `n` candidates and return
the records in completion order (fastest first); error if any probe fails
or the deadline fires first. -/
def probeAll (n : Nat) (events : List ProbeEvent) : Except String (List RR) :=
  probeAllGo n events []

/-- The `ipRRs` extraction (src/fastest-tcp.go lines 69-74): the answer
records whose type equals the question's type, in answer order. -/
def ipRRs (a : Msg) (question : Question) : List RR :=
  a.answer.filter (fun rr => rr.rrtype == question.qtype)

/-- Method `FastestTCP.Resolve` (src/fastest-tcp.go), with the wrapped resolver's
output passed in as `upstream` (answer message and optional error) and the
probe round abstracted as `events`. Returns `none` exactly when the Go
code panics on `q.Question[0]` (empty question list after a successful
delegation); otherwise `some` of the returned (message, error) pair. -/
def FastestTCP.resolveModel (r : FastestTCP) (q : Msg)
    (upstream : Msg × Option String) (events : List ProbeEvent) :
    Option (Msg × Option String) :=
  let (a, err) := upstream
  match err with
  | some e => some (a, some e)
  | none =>
    match q.question.head? with
    | none => none
    | some question =>
      if question.qtype != typeA && question.qtype != typeAAAA then
        some (a, none)
      else
        if (ipRRs a question).length < 2 then
          some (a, none)
        else if r.opt.waitAll then
          match probeAll (ipRRs a question).length events with
          | Except.error _ => some (a, none)
          | Except.ok rrs => some ({ a with answer := rrs }, none)
        else
          match probeFastest events with
          | Except.error _ => some (a, none)
          | Except.ok first => some ({ a with answer := [first] }, none)

/-- The successful record of a probe event, if any (used to relate a
wait-for-all round to the candidate set it probed). -/
def eventOk (ev : ProbeEvent) : Option RR :=
  match ev with
  | ProbeEvent.res (Except.ok rr) => some rr
  | _ => none

/-! ## Concrete fixtures (used by the closed witness theorems) -/

/-- An A record. -/
def rrA1 : RR := ⟨typeA, "example.com.", "192.0.2.1"⟩

/-- A second A record. -/
def rrA2 : RR := ⟨typeA, "example.com.", "192.0.2.2"⟩

/-- A CNAME (alias) record, type different from the question's. -/
def rrAlias : RR := ⟨typeCNAME, "alias.example.com.", "example.com."⟩

/-- A query message with one A question. -/
def qMsgA : Msg := ⟨7, 0, [⟨"example.com.", typeA, 1⟩], [], [], []⟩

/-- A query message with one TXT (type 16) question. -/
def qMsgTxt : Msg := ⟨7, 0, [⟨"example.com.", 16, 1⟩], [], [], []⟩

/-- An upstream answer with two A candidate records, and records in the
authority and additional sections. -/
def ansTwo : Msg :=
  ⟨7, 0, [⟨"example.com.", typeA, 1⟩], [rrA1, rrA2], [rrAlias], [rrAlias]⟩

/-- An upstream answer with one A record only. -/
def ansOne : Msg := ⟨7, 0, [⟨"example.com.", typeA, 1⟩], [rrA1], [], []⟩

/-- An upstream answer mixing an alias record with two A candidates. -/
def ansMixed : Msg :=
  ⟨7, 0, [⟨"example.com.", typeA, 1⟩], [rrAlias, rrA1, rrA2], [], []⟩

/-- A first-to-respond (`WaitAll = false`) probe resolver instance. -/
def rFirst : FastestTCP := NewFastestTCP "fastest-tcp" ⟨443, false⟩

/-- A wait-for-all (`WaitAll = true`) probe resolver instance. -/
def rWait : FastestTCP := NewFastestTCP "fastest-tcp" ⟨443, true⟩

/-! ## Theorems -/

/-- A rule set containing a malformed pattern fails to build (fail-fast,
whole-build abort). -/
theorem buildRules_error_of_invalid {out : List String} {p : String}
    (hp : p ∈ out) (hinv : parseRulePattern p = none) :
    ∃ e, buildRules out = Except.error e := by
  induction out with
  | nil => cases hp
  | cons a rest ih =>
    cases hp with
    | head => exact ⟨"invalid rule '" ++ p ++ "'", by simp [buildRules, hinv]⟩
    | tail _ hmem =>
      cases hpa : parseRulePattern a with
      | none => exact ⟨"invalid rule '" ++ a ++ "'", by simp [buildRules, hpa]⟩
      | some r =>
        obtain ⟨e, he⟩ := ih hmem
        exact ⟨e, by simp [buildRules, hpa, he]⟩

/-- C1: for the test rule set, `Match` answers true on `domain1.com.`,
`domain2.com.`, `sub.domain2.com.`, `sub.domain3.com.`, `domain4.com.`,
`sub.domain4.com.` and false on `x.domain1.com.`, `domain3.com.`,
`unblocked.test.`, `com.`; the `Exact` rule at `x.domain2.com` is the
deciding rule for that exact name (precedence over the ancestor
`ExactAndSubdomains` rule at `domain2.com`), and the `SubdomainsOnly`
rule `*.domain3.com` never matches its own apex `domain3.com`. -/
theorem domainDB_scenario :
    ∃ db, DomainDB.Reload ⟨"testlist", []⟩ testPatterns = Except.ok db ∧
      (db.Match "domain1.com.").isSome = true ∧
      (db.Match "x.domain1.com.").isSome = false ∧
      (db.Match "domain2.com.").isSome = true ∧
      (db.Match "sub.domain2.com.").isSome = true ∧
      (db.Match "domain3.com.").isSome = false ∧
      (db.Match "sub.domain3.com.").isSome = true ∧
      (db.Match "domain4.com.").isSome = true ∧
      (db.Match "sub.domain4.com.").isSome = true ∧
      (db.Match "unblocked.test.").isSome = false ∧
      (db.Match "com.").isSome = false ∧
      db.Match "x.domain2.com." =
        some ⟨["x", "domain2", "com"], DomainRuleType.Exact, "x.domain2.com"⟩ ∧
      db.Match "domain3.com." = none :=
  ⟨_, rfl, by decide⟩

/-- C2: a `Reload` call on a loader output containing an invalid pattern
returns an error, the receiver is unchanged by the call, and the
previously loaded rule state answers `Match` exactly as before. -/
theorem domainDB_reload_invalid (db : DomainDB) (out : List String)
    (p : String) (hp : p ∈ out) (hinv : parseRulePattern p = none) :
    (∃ e, (db.reloadCall out).2 = Except.error e) ∧
      (db.reloadCall out).1 = db ∧
      ∀ q, (db.reloadCall out).1.Match q = db.Match q := by
  obtain ⟨e, he⟩ := buildRules_error_of_invalid hp hinv
  refine ⟨⟨e, ?_⟩, rfl, fun q => rfl⟩
  simp [DomainDB.reloadCall, DomainDB.Reload] at he ⊢
  simp [he]

/-- Witness for C2 at the test input `sub.*.com` (TestDomainDBError). -/
theorem domainDB_reload_invalid_witness :
    ("sub.*.com" ∈ ["sub.*.com", "*domain.com"]) ∧
      parseRulePattern "sub.*.com" = none ∧
      ((∃ e, (DomainDB.reloadCall ⟨"testlist", []⟩
            ["sub.*.com", "*domain.com"]).2 = Except.error e) ∧
        (DomainDB.reloadCall ⟨"testlist", []⟩
            ["sub.*.com", "*domain.com"]).1 = ⟨"testlist", []⟩ ∧
        ∀ q, (DomainDB.reloadCall ⟨"testlist", []⟩
            ["sub.*.com", "*domain.com"]).1.Match q =
          DomainDB.Match ⟨"testlist", []⟩ q) :=
  ⟨by decide, by decide,
    domainDB_reload_invalid ⟨"testlist", []⟩ ["sub.*.com", "*domain.com"]
      "sub.*.com" (by decide) (by decide)⟩

/-- C3: an error from the wrapped resolver is propagated verbatim together
with the wrapped resolver's answer, for every probe-event stream (no
probing, no modification of the answer). -/
theorem fastestTCP_upstream_error (r : FastestTCP) (q a : Msg) (e : String)
    (events : List ProbeEvent) :
    r.resolveModel q (a, some e) events = some (a, some e) := rfl

/-- C6: a non-address question type (neither A nor AAAA) returns the
wrapped answer unchanged with nil error, for every probe-event stream. -/
theorem fastestTCP_non_address (r : FastestTCP) (q a : Msg)
    (question : Question) (events : List ProbeEvent)
    (hq : q.question.head? = some question)
    (hA : question.qtype ≠ typeA) (hAAAA : question.qtype ≠ typeAAAA) :
    r.resolveModel q (a, none) events = some (a, none) := by
  have hcond : (question.qtype != typeA && question.qtype != typeAAAA) = true := by
    simp [bne_iff_ne]
    exact ⟨hA, hAAAA⟩
  simp [FastestTCP.resolveModel, hq, hcond]

/-- Witness for C6: a TXT question returns the wrapped answer unchanged. -/
theorem fastestTCP_non_address_witness :
    qMsgTxt.question.head? = some ⟨"example.com.", 16, 1⟩ ∧
      rFirst.resolveModel qMsgTxt (ansTwo, none) [] = some (ansTwo, none) :=
  ⟨by decide,
    fastestTCP_non_address rFirst qMsgTxt ansTwo ⟨"example.com.", 16, 1⟩ []
      (by decide) (by decide) (by decide)⟩

/-- C7: an address-type question whose wrapped answer holds fewer than two
records of the question's type returns the wrapped answer unchanged with
nil error, for every probe-event stream. -/
theorem fastestTCP_few_candidates (r : FastestTCP) (q a : Msg)
    (question : Question) (events : List ProbeEvent)
    (hq : q.question.head? = some question)
    (hty : question.qtype = typeA ∨ question.qtype = typeAAAA)
    (hn : (ipRRs a question).length < 2) :
    r.resolveModel q (a, none) events = some (a, none) := by
  have hcond : (question.qtype != typeA && question.qtype != typeAAAA) = false := by
    cases hty with
    | inl h => simp [h]
    | inr h => simp [h]
  simp [FastestTCP.resolveModel, hq, hcond, hn]

/-- Witness for C7: a one-record A answer is returned unchanged. -/
theorem fastestTCP_few_candidates_witness :
    qMsgA.question.head? = some ⟨"example.com.", typeA, 1⟩ ∧
      (ipRRs ansOne ⟨"example.com.", typeA, 1⟩).length < 2 ∧
      rFirst.resolveModel qMsgA (ansOne, none) [] = some (ansOne, none) :=
  ⟨by decide, by decide,
    fastestTCP_few_candidates rFirst qMsgA ansOne ⟨"example.com.", typeA, 1⟩ []
      (by decide) (Or.inl (by decide)) (by decide)⟩

/-- C9: a non-empty question list is a precondition of `Resolve`; under it
the unchecked `q.Question[0]` access never goes out of bounds (the model
never reaches its panic value `none`), for every upstream result and
probe-event stream. -/
theorem fastestTCP_question_nonempty (r : FastestTCP) (q : Msg)
    (upstream : Msg × Option String) (events : List ProbeEvent)
    (hne : q.question ≠ []) :
    (r.resolveModel q upstream events).isSome = true := by
  obtain ⟨a, err⟩ := upstream
  cases err with
  | some e => rfl
  | none =>
    cases hq : q.question with
    | nil => exact absurd hq hne
    | cons question rest =>
      simp only [FastestTCP.resolveModel, hq, List.head?]
      split
      · rfl
      · split
        · rfl
        · split
          · split <;> rfl
          · split <;> rfl

/-- Witness for C9 at a concrete one-question query. -/
theorem fastestTCP_question_nonempty_witness :
    qMsgA.question ≠ [] ∧
      (rFirst.resolveModel qMsgA (ansTwo, none) []).isSome = true :=
  ⟨by decide, fastestTCP_question_nonempty rFirst qMsgA (ansTwo, none) [] (by decide)⟩

/-- Reading loop characterization: a successful `probeAll` round collects
exactly the successful records of the first `n` events, in completion
order, behind the accumulator. -/
theorem probeAllGo_ok (n : Nat) (events : List ProbeEvent) (acc l : List RR)
    (h : probeAllGo n events acc = Except.ok l) :
    l = acc.reverse ++ (events.take n).filterMap eventOk := by
  induction n generalizing events acc l with
  | zero =>
    simp [probeAllGo] at h
    simp [h]
  | succ n ih =>
    cases events with
    | nil => simp [probeAllGo] at h
    | cons ev rest =>
      cases ev with
      | deadline => simp [probeAllGo] at h
      | res pr =>
        cases pr with
        | error e => simp [probeAllGo] at h
        | ok rr =>
          have hrec := ih rest (rr :: acc) l (by simpa [probeAllGo] using h)
          simp [hrec, eventOk, List.filterMap_cons]

/-- Reduction of `Resolve` to the probe round: with a successful upstream,
an address-type question and at least two candidates, the result is decided
by `probeAll` (wait-for-all) or `probeFastest` (first-to-respond). -/
theorem resolveModel_probing (r : FastestTCP) (q a : Msg)
    (question : Question) (events : List ProbeEvent)
    (hq : q.question.head? = some question)
    (hty : question.qtype = typeA ∨ question.qtype = typeAAAA)
    (hn : 2 ≤ (ipRRs a question).length) :
    r.resolveModel q (a, none) events =
      if r.opt.waitAll then
        match probeAll (ipRRs a question).length events with
        | Except.error _ => some (a, none)
        | Except.ok rrs => some ({ a with answer := rrs }, none)
      else
        match probeFastest events with
        | Except.error _ => some (a, none)
        | Except.ok first => some ({ a with answer := [first] }, none) := by
  have hcond : (question.qtype != typeA && question.qtype != typeAAAA) = false := by
    cases hty with
    | inl h => simp [h]
    | inr h => simp [h]
  have hlen : ¬(ipRRs a question).length < 2 := Nat.not_lt.mpr hn
  simp [FastestTCP.resolveModel, hq, hcond, hlen]

/-- C4: in first-to-respond mode with at least two candidates, a
first-completing successful probe replaces the record set by exactly that
one record; a first-completing failed probe, or the deadline firing before
any probe completes, returns the original wrapped answer unmodified with
nil error. -/
theorem fastestTCP_first_mode (r : FastestTCP) (q a : Msg)
    (question : Question) (events : List ProbeEvent)
    (hw : r.opt.waitAll = false)
    (hq : q.question.head? = some question)
    (hty : question.qtype = typeA ∨ question.qtype = typeAAAA)
    (hn : 2 ≤ (ipRRs a question).length) :
    (∀ rr, events.head? = some (ProbeEvent.res (Except.ok rr)) →
        r.resolveModel q (a, none) events =
          some ({ a with answer := [rr] }, none)) ∧
    (∀ e, events.head? = some (ProbeEvent.res (Except.error e)) →
        r.resolveModel q (a, none) events = some (a, none)) ∧
    ((events.head? = some ProbeEvent.deadline ∨ events.head? = none) →
        r.resolveModel q (a, none) events = some (a, none)) := by
  have hred := resolveModel_probing r q a question events hq hty hn
  simp only [hw, if_false, Bool.false_eq_true] at hred
  refine ⟨?_, ?_, ?_⟩
  · intro rr hh
    cases events with
    | nil => simp at hh
    | cons ev rest =>
      simp only [List.head?, Option.some.injEq] at hh
      subst hh
      simpa [probeFastest] using hred
  · intro e hh
    cases events with
    | nil => simp at hh
    | cons ev rest =>
      simp only [List.head?, Option.some.injEq] at hh
      subst hh
      simpa [probeFastest] using hred
  · intro hh
    cases events with
    | nil => simpa [probeFastest] using hred
    | cons ev rest =>
      simp only [List.head?, Option.some.injEq] at hh
      cases hh with
      | inl hh =>
        subst hh
        simpa [probeFastest] using hred
      | inr hh => cases hh

/-- Witness for C4: with two A candidates, the one successful
first-completing probe narrows the answer to that record. -/
theorem fastestTCP_first_mode_witness :
    rFirst.opt.waitAll = false ∧
      2 ≤ (ipRRs ansTwo ⟨"example.com.", typeA, 1⟩).length ∧
      rFirst.resolveModel qMsgA (ansTwo, none)
          [ProbeEvent.res (Except.ok rrA2)] =
        some ({ ansTwo with answer := [rrA2] }, none) :=
  ⟨by decide, by decide,
    (fastestTCP_first_mode rFirst qMsgA ansTwo ⟨"example.com.", typeA, 1⟩
        [ProbeEvent.res (Except.ok rrA2)] (by decide) (by decide)
        (Or.inl (by decide)) (by decide)).1 rrA2 (by decide)⟩

/-- C5: in wait-for-all mode with N >= 2 candidates, a failed probe or the
deadline firing before all N results are collected discards all partial
results and returns the original wrapped answer unmodified with nil error;
when all N probes succeed the record set is replaced by the results in
completion order, which - whenever the round's successful events deliver
the candidate set - is the full candidate set reordered by ascending
completion time. -/
theorem fastestTCP_wait_all (r : FastestTCP) (q a : Msg)
    (question : Question) (events : List ProbeEvent)
    (hw : r.opt.waitAll = true)
    (hq : q.question.head? = some question)
    (hty : question.qtype = typeA ∨ question.qtype = typeAAAA)
    (hn : 2 ≤ (ipRRs a question).length) :
    ((∃ e, probeAll (ipRRs a question).length events = Except.error e) →
        r.resolveModel q (a, none) events = some (a, none)) ∧
    (∀ l, probeAll (ipRRs a question).length events = Except.ok l →
        r.resolveModel q (a, none) events =
          some ({ a with answer := l }, none) ∧
        (((events.take (ipRRs a question).length).filterMap eventOk).Perm
            (ipRRs a question) → l.Perm (ipRRs a question))) := by
  have hred := resolveModel_probing r q a question events hq hty hn
  simp only [hw, if_true] at hred
  constructor
  · rintro ⟨e, he⟩
    rw [hred, he]
  · intro l hl
    refine ⟨by rw [hred, hl], ?_⟩
    intro hperm
    have hchar := probeAllGo_ok (ipRRs a question).length events [] l hl
    simp only [List.reverse_nil, List.nil_append] at hchar
    rw [hchar]
    exact hperm

/-- Witness for C5: both probes succeed in reverse candidate order; the
answer is reordered to completion order, a permutation of the candidates. -/
theorem fastestTCP_wait_all_witness :
    rWait.opt.waitAll = true ∧
      rWait.resolveModel qMsgA (ansTwo, none)
          [ProbeEvent.res (Except.ok rrA2), ProbeEvent.res (Except.ok rrA1)] =
        some ({ ansTwo with answer := [rrA2, rrA1] }, none) ∧
      ([rrA2, rrA1] : List RR).Perm (ipRRs ansTwo ⟨"example.com.", typeA, 1⟩) := by
  have h := (fastestTCP_wait_all rWait qMsgA ansTwo ⟨"example.com.", typeA, 1⟩
      [ProbeEvent.res (Except.ok rrA2), ProbeEvent.res (Except.ok rrA1)]
      (by decide) (by decide) (Or.inl (by decide)) (by decide)).2
      [rrA2, rrA1] (by decide)
  exact ⟨by decide, h.1, h.2 (by decide)⟩

/-- C10: when a probe round succeeds (either mode), the returned message
is the wrapped resolver's message with only its answer section replaced:
id, rcode, question, authority and additional sections are unchanged (the
model is a pure function of the upstream message, so the input query is
never written to). -/
theorem fastestTCP_success_frame (r : FastestTCP) (q a : Msg)
    (question : Question) (events : List ProbeEvent)
    (hq : q.question.head? = some question)
    (hty : question.qtype = typeA ∨ question.qtype = typeAAAA)
    (hn : 2 ≤ (ipRRs a question).length)
    (hsucc : (r.opt.waitAll = true ∧
        ∃ l, probeAll (ipRRs a question).length events = Except.ok l) ∨
      (r.opt.waitAll = false ∧
        ∃ rr, events.head? = some (ProbeEvent.res (Except.ok rr)))) :
    ∃ ans, r.resolveModel q (a, none) events =
      some (⟨a.msgId, a.rcode, a.question, ans, a.ns, a.extra⟩, none) := by
  have hred := resolveModel_probing r q a question events hq hty hn
  cases hsucc with
  | inl h =>
    obtain ⟨hw, l, hl⟩ := h
    simp only [hw, if_true] at hred
    exact ⟨l, by rw [hred, hl]⟩
  | inr h =>
    obtain ⟨hw, rr, hh⟩ := h
    simp only [hw, if_false, Bool.false_eq_true] at hred
    cases events with
    | nil => simp at hh
    | cons ev rest =>
      simp only [List.head?, Option.some.injEq] at hh
      subst hh
      exact ⟨[rr], by simpa [probeFastest] using hred⟩

/-- Witness for C10: a successful first-to-respond round keeps id, rcode,
question, authority and additional sections of the upstream answer. -/
theorem fastestTCP_success_frame_witness :
    (rFirst.opt.waitAll = false ∧
      ∃ rr, ([ProbeEvent.res (Except.ok rrA1)] : List ProbeEvent).head? =
        some (ProbeEvent.res (Except.ok rr))) ∧
    ∃ ans, rFirst.resolveModel qMsgA (ansTwo, none)
        [ProbeEvent.res (Except.ok rrA1)] =
      some (⟨ansTwo.msgId, ansTwo.rcode, ansTwo.question, ans,
        ansTwo.ns, ansTwo.extra⟩, none) :=
  ⟨⟨by decide, rrA1, by decide⟩,
    fastestTCP_success_frame rFirst qMsgA ansTwo ⟨"example.com.", typeA, 1⟩
      [ProbeEvent.res (Except.ok rrA1)] (by decide) (Or.inl (by decide))
      (by decide) (Or.inr ⟨by decide, rrA1, by decide⟩)⟩

/-- C8 counterexample: with answer `[alias, A1, A2]` and a successful
first-to-respond probe round selecting A1, the returned answer section is
exactly `[A1]` - the alias record, present in the upstream answer, is NOT
left in the answer returned after the successful round. -/
theorem fastestTCP_alias_dropped_cex :
    rFirst.resolveModel qMsgA (ansMixed, none)
        [ProbeEvent.res (Except.ok rrA1)] =
      some (⟨7, 0, [⟨"example.com.", typeA, 1⟩], [rrA1], [], []⟩, none) ∧
    rrAlias ∈ ansMixed.answer ∧
    rrAlias ∉ (⟨7, 0, [⟨"example.com.", typeA, 1⟩], [rrA1], [], []⟩ : Msg).answer := by
  decide

/-- C8 (amended): records whose type differs from the question's type are
excluded from the candidate set and from probing, and remain in the answer
whenever it is returned unchanged; but when a probe round succeeds, the
entire answer section is replaced by the selected or reordered candidate
records only, so (for a probe round delivering candidate records) every
record of the returned answer has the question's type and non-matching
records are dropped. -/
theorem fastestTCP_alias_excluded (r : FastestTCP) (q a : Msg)
    (question : Question) (events : List ProbeEvent)
    (hq : q.question.head? = some question)
    (hty : question.qtype = typeA ∨ question.qtype = typeAAAA)
    (hn : 2 ≤ (ipRRs a question).length) :
    (∀ x ∈ ipRRs a question, x.rrtype = question.qtype) ∧
    (∀ x ∈ a.answer, x.rrtype ≠ question.qtype → x ∉ ipRRs a question) ∧
    (∀ rr, r.opt.waitAll = false →
      events.head? = some (ProbeEvent.res (Except.ok rr)) →
      rr ∈ ipRRs a question →
      ∀ m, r.resolveModel q (a, none) events = some (m, none) →
        ∀ x ∈ m.answer, x.rrtype = question.qtype) ∧
    (∀ l, r.opt.waitAll = true →
      probeAll (ipRRs a question).length events = Except.ok l →
      ((events.take (ipRRs a question).length).filterMap eventOk).Perm
          (ipRRs a question) →
      ∀ m, r.resolveModel q (a, none) events = some (m, none) →
        ∀ x ∈ m.answer, x.rrtype = question.qtype) := by
  have hmem : ∀ x ∈ ipRRs a question, x.rrtype = question.qtype := by
    intro x hx
    have := List.mem_filter.mp hx
    simpa using this.2
  have hred := resolveModel_probing r q a question events hq hty hn
  refine ⟨hmem, ?_, ?_, ?_⟩
  · intro x _ hne hmem2
    exact hne (hmem x hmem2)
  · intro rr hw hh hrr m hm
    simp only [hw, if_false, Bool.false_eq_true] at hred
    cases events with
    | nil => simp at hh
    | cons ev rest =>
      simp only [List.head?, Option.some.injEq] at hh
      subst hh
      simp only [probeFastest] at hred
      rw [hred] at hm
      have hm' : ({ a with answer := [rr] } : Msg) = m := by
        simpa using hm
      intro x hx
      rw [← hm'] at hx
      simp only [Msg.mk.injEq] at hx
      have : x = rr := by simpa using hx
      rw [this]
      exact hmem rr hrr
  · intro l hw hl hperm m hm
    simp only [hw, if_true] at hred
    rw [hred, hl] at hm
    have hm' : ({ a with answer := l } : Msg) = m := by
      simpa using hm
    have hchar := probeAllGo_ok (ipRRs a question).length events [] l hl
    simp only [List.reverse_nil, List.nil_append] at hchar
    intro x hx
    rw [← hm'] at hx
    have hxl : x ∈ l := hx
    rw [hchar] at hxl
    exact hmem x (hperm.mem_iff.mp hxl)

/-- Witness for C8 (amended): the alias record is excluded from the
candidate set, and after the successful probe round every record of the
returned answer has the question's type. -/
theorem fastestTCP_alias_excluded_witness :
    rrAlias ∈ ansMixed.answer ∧
      rrAlias ∉ ipRRs ansMixed ⟨"example.com.", typeA, 1⟩ ∧
      (∀ x ∈ ({ ansMixed with answer := [rrA1] } : Msg).answer,
        x.rrtype = typeA) := by
  have h := fastestTCP_alias_excluded rFirst qMsgA ansMixed
      ⟨"example.com.", typeA, 1⟩ [ProbeEvent.res (Except.ok rrA1)]
      (by decide) (Or.inl (by decide)) (by decide)
  refine ⟨by decide, by decide, ?_⟩
  exact h.2.2.1 rrA1 (by decide) (by decide) (by decide)
    { ansMixed with answer := [rrA1] } (by decide)
